import Mathlib

/-!
Verification development for the python-helper-scripts repository
(src/helpers.py and src/mplwp.py).

The Python code is shallowly embedded in Lean.  Conventions:

* Real-valued numeric code is modelled over `ℝ`; `np.exp` is `Real.exp`.
* Fallible scalar evaluation is modelled with `Except Unit`: a value
  `Except.error ()` marks a raised `ZeroDivisionError` (Python raises it
  for scalar float division by zero, e.g. `-1/x` at `x = 0` or division
  by a zero denominator).  For element-wise (numpy-array) evaluation
  numpy never raises on these operations, so a separate total model
  (`*_vec`) is used; there `np.where(x <= 0, 0, np.exp(-1/x))` picks the
  zero branch whenever `x ≤ 0`.
* Integer and string code is modelled computably so that concrete
  executions can be checked by `decide` / `rfl`.
-/

/-! ## Model of helpers.py: bump_function (scalar semantics)

`f = lambda x: np.where(x <= 0, 0, np.exp(-1/x))`.  For a Python scalar
argument, `-1/x` is evaluated eagerly (before `np.where` chooses a
branch) and raises `ZeroDivisionError` exactly when `x = 0`. -/

noncomputable def np_f (t : ℝ) : Except Unit ℝ :=
  if t = 0 then Except.error ()
  else Except.ok (if t ≤ 0 then 0 else Real.exp (-1 / t))

/-- `g = lambda x: f(x) / (f(x) + f(1 - x))`.  The final division is a
numpy 0-d-array division and never raises; errors come only from the two
`f` evaluations (in that order). -/
noncomputable def np_g (t : ℝ) : Except Unit ℝ := do
  let u ← np_f t
  let v ← np_f (1 - t)
  pure (u / (u + v))

/-- `h = lambda x: g((x-inner_bound**2) / (outer_bound**2 - inner_bound**2))`.
The Python scalar division raises `ZeroDivisionError` when the
denominator is zero. -/
noncomputable def np_h (a b y : ℝ) : Except Unit ℝ :=
  if b ^ 2 - a ^ 2 = 0 then Except.error ()
  else np_g ((y - a ^ 2) / (b ^ 2 - a ^ 2))

/-- `k = lambda x: h(x ** 2)`. -/
noncomputable def np_k (a b x : ℝ) : Except Unit ℝ := np_h a b (x ^ 2)

/-- The function `rho` returned by `bump_function(a, b)`:
`try: return 1 - k(x) except ZeroDivisionError: return 1 - k(x + 1e-6)`.
If the retry raises again, the error propagates to the caller (modelled
by `Except.map` over an `Except.error`). -/
noncomputable def rho (a b x : ℝ) : Except Unit ℝ :=
  match np_k a b x with
  | Except.ok v => Except.ok (1 - v)
  | Except.error _ => Except.map (fun v => 1 - v) (np_k a b (x + 1 / 1000000))

/-! ## Model of helpers.py: bump_function (element-wise array semantics)

For numpy array input no exception is raised: `np.where(t <= 0, 0, ...)`
yields `0` whenever `t ≤ 0`, and divisions produce values, not errors. -/

noncomputable def np_f_vec (t : ℝ) : ℝ :=
  if t ≤ 0 then 0 else Real.exp (-1 / t)

noncomputable def np_g_vec (t : ℝ) : ℝ :=
  np_f_vec t / (np_f_vec t + np_f_vec (1 - t))

noncomputable def rho_vec (a b x : ℝ) : ℝ :=
  1 - np_g_vec ((x ^ 2 - a ^ 2) / (b ^ 2 - a ^ 2))

/-- `one_d_smoothing_function(left, right, rounding_side_lengths)` is
`lambda x: bump_function((right-left)/2 - rounding, (right-left)/2)(x - (left+right)/2)`
(scalar semantics). -/
noncomputable def one_d_smoothing_function
    (left right rounding_side_lengths x : ℝ) : Except Unit ℝ :=
  rho ((right - left) / 2 - rounding_side_lengths) ((right - left) / 2)
    (x - (left + right) / 2)

/-! ## Branch-evaluation lemmas for the bump model -/

lemma np_f_of_neg {t : ℝ} (h : t < 0) : np_f t = Except.ok 0 := by
  rw [np_f, if_neg (ne_of_lt h), if_pos (le_of_lt h)]

lemma np_f_of_pos {t : ℝ} (h : 0 < t) :
    np_f t = Except.ok (Real.exp (-1 / t)) := by
  rw [np_f, if_neg (ne_of_gt h), if_neg (not_le.mpr h)]

lemma np_f_zero : np_f 0 = Except.error () := by simp [np_f]

lemma np_g_of_neg {t : ℝ} (h : t < 0) : np_g t = Except.ok 0 := by
  rw [np_g, np_f_of_neg h, np_f_of_pos (by linarith : (0:ℝ) < 1 - t)]
  simp [Bind.bind, Except.bind, Pure.pure, Except.pure]

lemma np_g_of_one_lt {t : ℝ} (h : 1 < t) : np_g t = Except.ok 1 := by
  rw [np_g, np_f_of_pos (by linarith : (0:ℝ) < t),
    np_f_of_neg (by linarith : 1 - t < 0)]
  simp [Bind.bind, Except.bind, Pure.pure, Except.pure, add_zero,
    div_self (Real.exp_ne_zero (-1 / t))]

/-- Core plateau lemma (scalar): strictly inside the inner radius the
returned value is exactly 1. -/
lemma rho_ok_one {a b x : ℝ} (h1 : x ^ 2 < a ^ 2) (h2 : a ^ 2 < b ^ 2) :
    rho a b x = Except.ok 1 := by
  have hd : b ^ 2 - a ^ 2 ≠ 0 := by linarith
  have ht : (x ^ 2 - a ^ 2) / (b ^ 2 - a ^ 2) < 0 :=
    div_neg_of_neg_of_pos (by linarith) (by linarith)
  have hk : np_k a b x = Except.ok 0 := by
    rw [np_k, np_h, if_neg hd, np_g_of_neg ht]
  rw [rho, hk]
  norm_num

/-- Core vanishing lemma (scalar): strictly outside the outer radius the
returned value is exactly 0. -/
lemma rho_ok_zero {a b x : ℝ} (h1 : b ^ 2 < x ^ 2) (h2 : a ^ 2 < b ^ 2) :
    rho a b x = Except.ok 0 := by
  have hd : b ^ 2 - a ^ 2 ≠ 0 := by linarith
  have ht : 1 < (x ^ 2 - a ^ 2) / (b ^ 2 - a ^ 2) :=
    (one_lt_div (by linarith)).mpr (by linarith)
  have hk : np_k a b x = Except.ok 1 := by
    rw [np_k, np_h, if_neg hd, np_g_of_one_lt ht]
  rw [rho, hk]
  norm_num

/-- Core plateau lemma (element-wise): inside the closed inner radius the
value is exactly 1. -/
lemma rho_vec_one {a b x : ℝ} (h1 : x ^ 2 ≤ a ^ 2) (h2 : a ^ 2 < b ^ 2) :
    rho_vec a b x = 1 := by
  have ht : (x ^ 2 - a ^ 2) / (b ^ 2 - a ^ 2) ≤ 0 :=
    div_nonpos_of_nonpos_of_nonneg (by linarith) (by linarith)
  rw [rho_vec, np_g_vec, np_f_vec, if_pos ht, zero_div, sub_zero]

/-- Core vanishing lemma (element-wise): outside the closed outer radius
the value is exactly 0. -/
lemma rho_vec_zero {a b x : ℝ} (h1 : b ^ 2 ≤ x ^ 2) (h2 : a ^ 2 < b ^ 2) :
    rho_vec a b x = 0 := by
  have ht : 1 ≤ (x ^ 2 - a ^ 2) / (b ^ 2 - a ^ 2) :=
    (one_le_div (by linarith)).mpr (by linarith)
  have htpos : ¬ (x ^ 2 - a ^ 2) / (b ^ 2 - a ^ 2) ≤ 0 := by linarith
  have h1t : 1 - (x ^ 2 - a ^ 2) / (b ^ 2 - a ^ 2) ≤ 0 := by linarith
  rw [rho_vec, np_g_vec]
  rw [show np_f_vec (1 - (x ^ 2 - a ^ 2) / (b ^ 2 - a ^ 2)) = 0 from
    if_pos h1t]
  rw [np_f_vec, if_neg htpos, add_zero,
    div_self (Real.exp_ne_zero _), sub_self]

lemma np_f_vec_nonneg (t : ℝ) : 0 ≤ np_f_vec t := by
  rw [np_f_vec]
  split
  · exact le_refl 0
  · exact (Real.exp_pos _).le

lemma np_g_one : np_g 1 = Except.error () := by
  rw [np_g, np_f_of_pos one_pos]
  simp [Bind.bind, Except.bind, np_f]

/-! ## Claim theorems for the bump-function family -/

/-- C1 (counterexample): the claim says `bump_function(a, a)(x)` raises no
division error because the epsilon retry recovers it.  At `a = 1`,
`x = 0` the code raises: the retry divides by the same zero denominator
`outer_bound**2 - inner_bound**2`, so the `ZeroDivisionError` propagates. -/
theorem bump_equal_bounds_counterexample : rho 1 1 0 = Except.error () := by
  have hk : ∀ y : ℝ, np_k 1 1 y = Except.error () := by
    intro y
    simp [np_k, np_h]
  simp only [rho, hk]
  rfl

/-- C1 (amended): for every `a` and every scalar `x`, the function
returned by `bump_function(a, a)` raises `ZeroDivisionError`: the first
evaluation divides by `a**2 - a**2 = 0`, and the retry at `x + 1e-6`
divides by the very same zero denominator, so the error propagates to the
caller. -/
theorem bump_equal_bounds_error_propagates (a x : ℝ) :
    rho a a x = Except.error () := by
  have hk : ∀ y : ℝ, np_k a a y = Except.error () := by
    intro y
    simp [np_k, np_h]
  simp only [rho, hk]
  rfl

/-- C2 (amended): for `0 ≤ inner_bound < outer_bound` the function `rho`
returned by `bump_function` satisfies, for scalar inputs, `rho x = 1` for
`|x| < inner_bound` and `rho x = 0` for `|x| > outer_bound` (exactly, no
exception escapes); for element-wise array inputs the closed regions work:
`rho x = 1` for `|x| ≤ inner_bound` and `rho x = 0` for
`|x| ≥ outer_bound`.  (At the scalar boundary points `|x| = inner_bound`
or `|x| = outer_bound` the eager `-1/0` raises and the `x + 1e-6` retry
can return arbitrary values; see the counterexample.) -/
theorem bump_plateau_amended (a b : ℝ) (ha : 0 ≤ a) (hab : a < b) :
    (∀ x : ℝ, |x| < a → rho a b x = Except.ok 1) ∧
    (∀ x : ℝ, b < |x| → rho a b x = Except.ok 0) ∧
    (∀ x : ℝ, |x| ≤ a → rho_vec a b x = 1) ∧
    (∀ x : ℝ, b ≤ |x| → rho_vec a b x = 0) := by
  have hb : 0 < b := lt_of_le_of_lt ha hab
  have hab2 : a ^ 2 < b ^ 2 := by nlinarith
  refine ⟨fun x hx => ?_, fun x hx => ?_, fun x hx => ?_, fun x hx => ?_⟩
  · exact rho_ok_one (by nlinarith [sq_abs x, abs_nonneg x]) hab2
  · exact rho_ok_zero (by nlinarith [sq_abs x, abs_nonneg x]) hab2
  · exact rho_vec_one (by nlinarith [sq_abs x, abs_nonneg x]) hab2
  · exact rho_vec_zero (by nlinarith [sq_abs x, abs_nonneg x]) hab2

/-- C2 (witness): concrete instance of the amended plateau theorem at
inner_bound 1, outer_bound 2. -/
theorem bump_plateau_witness :
    rho 1 2 0 = Except.ok 1 ∧ rho 1 2 3 = Except.ok 0 ∧
    rho_vec 1 2 1 = 1 ∧ rho_vec 1 2 2 = 0 := by
  obtain ⟨h1, h2, h3, h4⟩ := bump_plateau_amended 1 2 (by norm_num) (by norm_num)
  refine ⟨h1 0 ?_, h2 3 ?_, h3 1 ?_, h4 2 ?_⟩
  · simp
  · rw [abs_of_nonneg (by norm_num : (0:ℝ) ≤ 3)]; norm_num
  · rw [abs_of_nonneg (by norm_num : (0:ℝ) ≤ 1)]
  · rw [abs_of_nonneg (by norm_num : (0:ℝ) ≤ 2)]

/-- C2 (counterexample): with inner_bound 1, outer_bound 1.0000001 and
the scalar input `x = -1.0000001` (so `|x| ≥ outer_bound`, where the
claim demands the value 0), the code raises on the first attempt
(`f(1-1)` computes `-1/0`) and the `x + 1e-6` retry lands strictly inside
the inner radius, returning exactly 1. -/
theorem bump_boundary_counterexample :
    (0:ℝ) ≤ 1 ∧ (1:ℝ) < 10000001/10000000 ∧
    (10000001/10000000 : ℝ) ≤ |(-(10000001/10000000) : ℝ)| ∧
    rho 1 (10000001/10000000) (-(10000001/10000000)) = Except.ok 1 := by
  refine ⟨by norm_num, by norm_num, by rw [abs_neg, abs_of_nonneg (by norm_num : (0:ℝ) ≤ 10000001/10000000)], ?_⟩
  have hden : ((10000001/10000000 : ℝ)) ^ 2 - 1 ^ 2 ≠ 0 := by norm_num
  have hk1 : np_k 1 (10000001/10000000) (-(10000001/10000000)) =
      Except.error () := by
    rw [np_k, np_h, if_neg hden,
      show ((-(10000001/10000000 : ℝ)) ^ 2 - 1 ^ 2) /
        ((10000001/10000000 : ℝ) ^ 2 - 1 ^ 2) = 1 by norm_num, np_g_one]
  have ht' : ((-(10000001/10000000 : ℝ) + 1/1000000) ^ 2 - 1 ^ 2) /
      ((10000001/10000000 : ℝ) ^ 2 - 1 ^ 2) < 0 :=
    div_neg_of_neg_of_pos (by norm_num) (by norm_num)
  have hk2 : np_k 1 (10000001/10000000) (-(10000001/10000000) + 1/1000000) =
      Except.ok 0 := by
    rw [np_k, np_h, if_neg hden, np_g_of_neg ht']
  simp only [rho, hk1, hk2, Except.map]
  norm_num

/-- C5 (amended): for `left < right` and `0 < rounding < (right-left)/2`
(strictly), the window returned by `one_d_smoothing_function` equals 1 at
the midpoint and on the open inner sub-interval
`(left + rounding, right - rounding)`, and equals 0 strictly outside
`[left, right]`.  (At `rounding = (right-left)/2` the code can raise, see
the counterexample.) -/
theorem window_amended (left right rounding : ℝ) (h1 : left < right)
    (h2 : 0 < rounding) (h3 : rounding < (right - left) / 2) :
    one_d_smoothing_function left right rounding ((left + right) / 2) =
      Except.ok 1 ∧
    (∀ x : ℝ, left + rounding < x → x < right - rounding →
      one_d_smoothing_function left right rounding x = Except.ok 1) ∧
    (∀ x : ℝ, x < left ∨ right < x →
      one_d_smoothing_function left right rounding x = Except.ok 0) := by
  have ha : 0 < (right - left) / 2 - rounding := by linarith
  have hb : (right - left) / 2 - rounding < (right - left) / 2 := by linarith
  have hab2 : ((right - left) / 2 - rounding) ^ 2 < ((right - left) / 2) ^ 2 := by
    nlinarith
  refine ⟨?_, fun x hxl hxr => ?_, fun x hx => ?_⟩
  · rw [one_d_smoothing_function, sub_self]
    exact rho_ok_one (by nlinarith) hab2
  · rw [one_d_smoothing_function]
    exact rho_ok_one (by nlinarith) hab2
  · rw [one_d_smoothing_function]
    rcases hx with hx | hx
    · exact rho_ok_zero (by nlinarith) hab2
    · exact rho_ok_zero (by nlinarith) hab2

/-- C5 (witness): concrete instance of the amended window theorem on the
interval [0, 4] with rounding 1. -/
theorem window_witness :
    one_d_smoothing_function 0 4 1 2 = Except.ok 1 ∧
    one_d_smoothing_function 0 4 1 (3/2) = Except.ok 1 ∧
    one_d_smoothing_function 0 4 1 5 = Except.ok 0 := by
  obtain ⟨hm, hin, hout⟩ :=
    window_amended 0 4 1 (by norm_num) (by norm_num) (by norm_num)
  refine ⟨?_, hin (3/2) (by norm_num) (by norm_num), hout 5 (Or.inr (by norm_num))⟩
  rw [show ((0:ℝ) + 4) / 2 = 2 by norm_num] at hm
  exact hm

/-- C5 (counterexample): the claim allows `rounding = (right-left)/2`.
On the window `one_d_smoothing_function(0, 2e-6, 1e-6)` evaluated at its
midpoint the claim demands the value 1, but the code raises: the inner
bound is 0, the first evaluation computes `-1/0`, and the `x + 1e-6`
retry hits the rescaled argument `t = 1` where `f(1-1)` again computes
`-1/0`, so the `ZeroDivisionError` propagates. -/
theorem window_midpoint_counterexample :
    (0:ℝ) < 2/1000000 ∧ (0:ℝ) < 1/1000000 ∧
    (1/1000000 : ℝ) ≤ ((2/1000000 : ℝ) - 0) / 2 ∧
    one_d_smoothing_function 0 (2/1000000) (1/1000000) ((0 + 2/1000000) / 2) =
      Except.error () := by
  refine ⟨by norm_num, by norm_num, by norm_num, ?_⟩
  rw [one_d_smoothing_function,
    show ((2/1000000 : ℝ) - 0) / 2 - 1/1000000 = 0 by norm_num,
    show ((2/1000000 : ℝ) - 0) / 2 = 1/1000000 by norm_num, sub_self]
  have hden : ((1/1000000 : ℝ)) ^ 2 - 0 ^ 2 ≠ 0 := by norm_num
  have hk1 : np_k 0 (1/1000000) 0 = Except.error () := by
    rw [np_k, np_h, if_neg hden,
      show ((0:ℝ) ^ 2 - 0 ^ 2) / ((1/1000000 : ℝ) ^ 2 - 0 ^ 2) = 0 by norm_num]
    rw [np_g, np_f_zero]
    rfl
  have hk2 : np_k 0 (1/1000000) (0 + 1/1000000) = Except.error () := by
    rw [np_k, np_h, if_neg hden,
      show (((0:ℝ) + 1/1000000) ^ 2 - 0 ^ 2) /
        ((1/1000000 : ℝ) ^ 2 - 0 ^ 2) = 1 by norm_num, np_g_one]
  simp only [rho, hk1, hk2]
  rfl

/-- C10 (confirmed): the normalisation denominator of the smooth step is
never zero: for every real `t`, `f(t) + f(1-t) > 0`, since at least one
of `t`, `1-t` is positive and `f` is positive on positive arguments
(`exp` is positive), so the division in `g` is always well defined. -/
theorem bump_denominator_positive (t : ℝ) :
    0 < np_f_vec t + np_f_vec (1 - t) := by
  by_cases h : t ≤ 0
  · rw [np_f_vec, if_pos h, zero_add, np_f_vec,
      if_neg (by simp; linarith : ¬ (1 - t ≤ 0))]
    exact Real.exp_pos _
  · have h1 : np_f_vec t = Real.exp (-1 / t) := if_neg h
    have h2 : 0 ≤ np_f_vec (1 - t) := np_f_vec_nonneg _
    rw [h1]
    exact add_pos_of_pos_of_nonneg (Real.exp_pos _) h2

/-! ## Model of helpers.py: uniformly_sample_array

`indices = np.linspace(0, len(array) - 1, n_samples, dtype=int)` followed
by `array[indices]`.  With `dtype=int` numpy truncates each evenly spaced
position toward zero; all positions are nonnegative for nonempty input,
so truncation is integer division.  `np.linspace` returns `[start]` for
`num = 1`, the empty array for `num = 0`, and raises `ValueError` for a
negative `num`.  Fancy indexing `array[indices]` raises `IndexError`
unless every index `i` satisfies `-len ≤ i < len`, with negative indices
counting from the end. -/

def linspaceIdx (L n : ℕ) : List ℤ :=
  if n = 1 then [0]
  else (List.range n).map (fun i : ℕ => Int.tdiv ((i : ℤ) * ((L : ℤ) - 1)) ((n : ℤ) - 1))

/-- One numpy array access with Python negative-index semantics
(callers check validity first, mirroring numpy's bounds check). -/
def npTake {α : Type} [Inhabited α] (A : List α) (i : ℤ) : α :=
  if 0 ≤ i then A.getD i.toNat default
  else A.getD ((A.length : ℤ) + i).toNat default

def validIdx (L : ℕ) (i : ℤ) : Bool := decide (-(L : ℤ) ≤ i ∧ i < (L : ℤ))

def uniformly_sample_array {α : Type} [Inhabited α] (A : List α) (n : ℤ) :
    Option (List α) :=
  if n < 0 then none
  else
    let idxs := linspaceIdx A.length n.toNat
    if idxs.all (validIdx A.length) then some (idxs.map (npTake A)) else none

/-- Modelled from the spec's words, for comparison only: the claim says
the evenly spaced positions are rounded to the NEAREST integer index;
this definition rounds `i*(L-1)/(n-1)` to the nearest integer
(`⌊q + 1/2⌋`, computed on nonnegative rationals `p/q` as
`(2p + q) / (2q)` in integer arithmetic) instead of truncating. -/
def nearestIdx (L n : ℕ) : List ℕ :=
  if n = 1 then [0]
  else (List.range n).map
    (fun i : ℕ => (2 * (i * (L - 1)) + (n - 1)) / (2 * (n - 1)))

lemma int_tdiv_coe (a b : ℕ) : Int.tdiv (a : ℤ) (b : ℤ) = ((a / b : ℕ) : ℤ) := rfl

lemma linspaceIdx_cast {L n : ℕ} (hL : 1 ≤ L) (hn : 2 ≤ n) (j : ℕ) :
    Int.tdiv ((j : ℤ) * ((L : ℤ) - 1)) ((n : ℤ) - 1) =
      ((j * (L - 1) / (n - 1) : ℕ) : ℤ) := by
  have h1 : (j : ℤ) * ((L : ℤ) - 1) = ((j * (L - 1) : ℕ) : ℤ) := by
    push_cast [Nat.cast_sub hL]
    ring
  have h2 : ((n : ℤ) - 1) = ((n - 1 : ℕ) : ℤ) := by
    push_cast [Nat.cast_sub (by omega : 1 ≤ n)]
    ring
  rw [h1, h2, int_tdiv_coe]

lemma linspaceIdx_mem_bounds {L n : ℕ} (hL : 1 ≤ L) :
    ∀ i ∈ linspaceIdx L n, 0 ≤ i ∧ i < (L : ℤ) := by
  intro i hi
  rw [linspaceIdx] at hi
  split at hi
  · rcases List.mem_singleton.mp hi with rfl
    exact ⟨le_refl 0, by exact_mod_cast hL⟩
  · rename_i hn1
    rcases List.mem_map.mp hi with ⟨j, hj, rfl⟩
    rcases List.mem_range.mp hj with hjn
    rcases Nat.lt_or_ge n 2 with hn | hn
    · omega
    · rw [linspaceIdx_cast hL hn j]
      refine ⟨Int.ofNat_nonneg _, ?_⟩
      have hb : j * (L - 1) / (n - 1) ≤ (n - 1) * (L - 1) / (n - 1) :=
        Nat.div_le_div_right (Nat.mul_le_mul_right _ (by omega))
      rw [Nat.mul_div_cancel_left _ (by omega : 0 < n - 1)] at hb
      exact_mod_cast Nat.lt_of_le_of_lt hb (by omega)

/-- C3 (amended): for `1 ≤ n ≤ L = len(A)`, `uniformly_sample_array A n`
succeeds and returns exactly the elements of `A` at the evenly spaced
positions `i*(L-1)/(n-1)` TRUNCATED to integers (not rounded to nearest):
exactly `n` elements in original order, the first equals `A[0]`, for
`n ≥ 2` the last equals `A[L-1]`, the index sequence is non-decreasing,
and `n = 1` returns just the first element (so for `n = 1` the last
returned element is `A[0]`, not `A[L-1]`). -/
theorem uniform_sample_amended {α : Type} [Inhabited α] (A : List α) (n : ℕ)
    (h1 : 1 ≤ n) (h2 : n ≤ A.length) :
    uniformly_sample_array A (n : ℤ) =
      some ((linspaceIdx A.length n).map (npTake A)) ∧
    ((linspaceIdx A.length n).map (npTake A)).length = n ∧
    ((linspaceIdx A.length n).map (npTake A)).getD 0 default = A.getD 0 default ∧
    (2 ≤ n → ((linspaceIdx A.length n).map (npTake A)).getD (n - 1) default =
      A.getD (A.length - 1) default) ∧
    List.Chain' (fun i j => i ≤ j) (linspaceIdx A.length n) ∧
    (n = 1 → (linspaceIdx A.length n).map (npTake A) = [A.getD 0 default]) := by
  have hL : 1 ≤ A.length := le_trans h1 h2
  refine ⟨?_, ?_, ?_, ?_, ?_, ?_⟩
  · rw [uniformly_sample_array,
      if_neg (not_lt.mpr (by exact_mod_cast Nat.zero_le n))]
    simp only [Int.toNat_natCast]
    rw [if_pos]
    rw [List.all_eq_true]
    intro i hi
    rcases linspaceIdx_mem_bounds hL i hi with ⟨hi0, hiL⟩
    rw [validIdx, decide_eq_true_eq]
    exact ⟨by omega, hiL⟩
  · rcases eq_or_ne n 1 with rfl | hn
    · simp [linspaceIdx]
    · simp [linspaceIdx, hn]
  · rcases eq_or_ne n 1 with rfl | hn
    · simp [linspaceIdx, npTake]
    · have hn2 : 2 ≤ n := by omega
      rw [linspaceIdx, if_neg hn]
      rw [List.getD_eq_getElem?_getD, List.getElem?_map, List.getElem?_map,
        List.getElem?_range (by omega : 0 < n)]
      simp only [Option.map_some', Option.getD_some, Nat.cast_zero, zero_mul,
        Int.zero_tdiv]
      rw [npTake, if_pos (le_refl 0)]
      rfl
  · intro hn2
    rw [linspaceIdx, if_neg (by omega : n ≠ 1)]
    rw [List.getD_eq_getElem?_getD, List.getElem?_map, List.getElem?_map,
      List.getElem?_range (by omega : n - 1 < n)]
    simp only [Option.map_some', Option.getD_some]
    rw [linspaceIdx_cast hL (by omega) (n - 1),
      Nat.mul_div_cancel_left _ (by omega : 0 < n - 1)]
    rw [npTake, if_pos (Int.ofNat_nonneg _), Int.toNat_natCast]
  · rcases eq_or_ne n 1 with rfl | hn
    · simp [linspaceIdx]
    · rw [linspaceIdx, if_neg hn, List.chain'_map, List.chain'_iff_get]
      intro i hi
      rw [List.get_eq_getElem, List.get_eq_getElem, List.getElem_range,
        List.getElem_range]
      rcases Nat.lt_or_ge n 2 with hcase | hcase
      · simp [List.length_range] at hi
        omega
      · rw [linspaceIdx_cast hL hcase, linspaceIdx_cast hL hcase]
        have : i * (A.length - 1) / (n - 1) ≤ (i + 1) * (A.length - 1) / (n - 1) :=
          Nat.div_le_div_right (Nat.mul_le_mul_right _ (by omega))
        exact_mod_cast this
  · intro hn
    subst hn
    simp [linspaceIdx, npTake]

/-- C3 (witness): concrete instance of the amended sampling theorem on a
three-element array with two samples. -/
theorem uniform_sample_witness :
    uniformly_sample_array ([10, 20, 30] : List ℤ) 2 = some [10, 30] ∧
    List.Chain' (fun i j => i ≤ j) (linspaceIdx 3 2) := by
  obtain ⟨h1, _, _, _, h5, _⟩ :=
    uniform_sample_amended ([10, 20, 30] : List ℤ) 2 (by norm_num) (by norm_num)
  exact ⟨h1.trans (by decide), h5⟩

/-- C3 (counterexample): the claim says the evenly spaced positions are
rounded to the NEAREST integer index.  For `L = 6`, `n = 4` the spaced
positions are `0, 5/3, 10/3, 5`; the code truncates them to `0, 1, 3, 5`
and returns `[A[0], A[1], A[3], A[5]]`, while nearest rounding gives
`0, 2, 3, 5`.  Also, for `n = 1` the code returns `[A[0]]`, so the last
returned element is not `A[L-1]`. -/
theorem uniform_sample_rounding_counterexample :
    uniformly_sample_array ([0, 1, 2, 3, 4, 5] : List ℤ) 4 =
      some [0, 1, 3, 5] ∧
    (nearestIdx 6 4).map (fun i => ([0, 1, 2, 3, 4, 5] : List ℤ).getD i 0) =
      [0, 2, 3, 5] ∧
    ([0, 1, 3, 5] : List ℤ) ≠ [0, 2, 3, 5] ∧
    uniformly_sample_array ([10, 20] : List ℤ) 1 = some [10] ∧
    (10 : ℤ) ≠ 20 :=
  ⟨by decide, by decide, by decide, by decide, by decide⟩

/-- C4 (amended): for a nonempty array, `uniformly_sample_array` fails
only for a negative requested count (`np.linspace` rejects a negative
`num` with `ValueError`).  In particular it does NOT fail for `n > L`
(it returns `n` elements with repeated indices) nor for `n = 0` (it
returns the empty array); see the counterexample. -/
theorem sample_failure_amended {α : Type} [Inhabited α] (A : List α)
    (hL : 1 ≤ A.length) (n : ℤ) :
    uniformly_sample_array A n = none ↔ n < 0 := by
  constructor
  · intro h
    by_contra hn
    push_neg at hn
    have hall : (linspaceIdx A.length n.toNat).all (validIdx A.length) = true := by
      rw [List.all_eq_true]
      intro i hi
      rcases linspaceIdx_mem_bounds hL i hi with ⟨hi0, hiL⟩
      rw [validIdx, decide_eq_true_eq]
      exact ⟨by omega, hiL⟩
    rw [uniformly_sample_array, if_neg (not_lt.mpr hn)] at h
    simp only [hall, if_true] at h
    exact Option.noConfusion h
  · intro h
    rw [uniformly_sample_array, if_pos h]

/-- C4 (witness): a negative count fails on a nonempty array. -/
theorem sample_failure_witness :
    uniformly_sample_array ([3] : List ℤ) (-1) = none :=
  (sample_failure_amended ([3] : List ℤ) (by norm_num) (-1)).mpr (by norm_num)

/-- C4 (counterexample): the claim says the call fails with an
index/shape error whenever `n > L` or `n < 1`.  It does not: for
`A = [10,20,30]` and `n = 5 > 3` it succeeds with repeated elements, and
for `n = 0 < 1` it succeeds with the empty result. -/
theorem sample_out_of_range_counterexample :
    uniformly_sample_array ([10, 20, 30] : List ℤ) 5 =
      some [10, 10, 20, 20, 30] ∧
    uniformly_sample_array ([10, 20, 30] : List ℤ) 0 = some [] :=
  ⟨by decide, by decide⟩

/-! ## Model of mplwp.py: remove_zeros path-data trimming

The four `re.sub` passes of `remove_zeros` are embedded operationally:
left-to-right scanning, one position at a time, greedy runs, with the
lookahead `(?=$|[^\d])` expressed as "the following character is not a
digit".  The passes only ever shorten or keep the list, so a fuel equal
to the input length is never exhausted (at fuel 0 the list is empty);
fuel makes the definitions structural so concrete runs reduce by
`decide`.  `\d` is modelled as the ASCII digits and `\s` as the ASCII
whitespace characters, matching the ASCII path data these files hold. -/

def startsWithDigit : List Char → Bool
  | c :: _ => c.isDigit
  | [] => false

/-- First pass: `re.sub(r"(\d+)\.0+(?=$|[^\d])", r"\1", d)`, `12.00 -> 12`. -/
def trimPass1 : ℕ → List Char → List Char
  | 0, s => s
  | _ + 1, [] => []
  | fuel + 1, c :: rest =>
    if c.isDigit then
      match rest.dropWhile Char.isDigit with
      | '.' :: r2 =>
        let zs := r2.takeWhile (fun x => x == '0')
        let r3 := r2.dropWhile (fun x => x == '0')
        if zs.isEmpty || startsWithDigit r3 then c :: trimPass1 fuel rest
        else (c :: rest.takeWhile Char.isDigit) ++ trimPass1 fuel r3
      | _ => c :: trimPass1 fuel rest
    else c :: trimPass1 fuel rest

/-- Second pass: `re.sub(r"\.0+(?=$|[^\d])", r"0", d)`, `.000 -> 0`. -/
def trimPass2 : ℕ → List Char → List Char
  | 0, s => s
  | _ + 1, [] => []
  | fuel + 1, c :: rest =>
    if c == '.' then
      let zs := rest.takeWhile (fun x => x == '0')
      let r3 := rest.dropWhile (fun x => x == '0')
      if zs.isEmpty || startsWithDigit r3 then c :: trimPass2 fuel rest
      else '0' :: trimPass2 fuel r3
    else c :: trimPass2 fuel rest

def stripTrailZeros (fs : List Char) : List Char :=
  (fs.reverse.dropWhile (fun x => x == '0')).reverse

/-- Third pass:
`re.sub(r"((\d+\.\d*[1-9])|(\.\d*[1-9]))0+(?=$|[^\d])", r"\1", d)`,
`12.20300 -> 12.203`.  The backtracking of `\d*[1-9]0+` against a
maximal digit run amounts to stripping the trailing zeros, provided at
least one zero is stripped and a digit (necessarily 1-9) remains in the
fraction. -/
def trimPass3 : ℕ → List Char → List Char
  | 0, s => s
  | _ + 1, [] => []
  | fuel + 1, c :: rest =>
    if c.isDigit then
      match rest.dropWhile Char.isDigit with
      | '.' :: r2 =>
        let fs := r2.takeWhile Char.isDigit
        let r3 := r2.dropWhile Char.isDigit
        let keep := stripTrailZeros fs
        if keep.length < fs.length && !keep.isEmpty then
          (c :: rest.takeWhile Char.isDigit) ++ '.' :: keep ++ trimPass3 fuel r3
        else c :: trimPass3 fuel rest
      | _ => c :: trimPass3 fuel rest
    else if c == '.' then
      let fs := rest.takeWhile Char.isDigit
      let r3 := rest.dropWhile Char.isDigit
      let keep := stripTrailZeros fs
      if keep.length < fs.length && !keep.isEmpty then
        '.' :: keep ++ trimPass3 fuel r3
      else c :: trimPass3 fuel rest
    else c :: trimPass3 fuel rest

def isPathLetter (c : Char) : Bool := decide ('A' ≤ c ∧ c ≤ 'z')

def isPySpace (c : Char) : Bool :=
  c == ' ' || c == '\t' || c == '\n' || c == '\x0b' || c == '\x0c' || c == '\r'

/-- Fourth pass: `re.sub(r"([A-z])(\S)", r"\1 \2", d)`; matches are
non-overlapping, so both matched characters are consumed. -/
def trimPass4 : List Char → List Char
  | c1 :: c2 :: rest =>
    if isPathLetter c1 && !isPySpace c2 then c1 :: ' ' :: c2 :: trimPass4 rest
    else c1 :: trimPass4 (c2 :: rest)
  | s => s

/-- The complete rewriting applied by `remove_zeros` to one `d` attribute. -/
def trimD (s : String) : String :=
  let t1 := trimPass1 s.data.length s.data
  let t2 := trimPass2 t1.length t1
  let t3 := trimPass3 t2.length t2
  String.mk (trimPass4 t3)

/-- C7 (counterexample): the claim's first example says
`"M12.000 30.500"` becomes `"M12 30.5"`; the letter-spacing pass also
separates `M` from `12`, so the code actually produces `"M 12 30.5"`. -/
theorem trim_spacing_counterexample :
    trimD "M12.000 30.500" = "M 12 30.5" ∧ "M 12 30.5" ≠ "M12 30.5" :=
  ⟨by decide, by decide⟩

/-- C7 (amended): the numeric trimming strips an all-zero fraction to the
bare integer, collapses a lone zero fraction to "0", trims trailing
zeros of a non-zero fraction, and inserts a space between a path-command
letter and an immediately following non-whitespace character; in
particular `"M12.000 30.500"` becomes `"M 12 30.5"` (the space insertion
also applies to the leading `M`), `".000"` becomes `"0"`, and `"L5A3"`
becomes `"L 5A 3"`. -/
theorem trim_examples_amended :
    trimD "M12.000 30.500" = "M 12 30.5" ∧ trimD ".000" = "0" ∧
    trimD "L5A3" = "L 5A 3" :=
  ⟨by decide, by decide, by decide⟩

/-! ## Model of mplwp.py: the SVG element tree

An lxml element is a tag, an ordered attribute list, an optional text
node and an ordered list of children.  Tags carry the Clark notation
namespace written by lxml (the `nsmap` braces around the namespace URI). -/

inductive XElem : Type where
  | mk : String → List (String × String) → Option String → List XElem → XElem

instance : Inhabited XElem := ⟨XElem.mk "" [] none []⟩

def XElem.tag : XElem → String
  | .mk t _ _ _ => t

def XElem.attrs : XElem → List (String × String)
  | .mk _ a _ _ => a

def XElem.text : XElem → Option String
  | .mk _ _ tx _ => tx

def XElem.children : XElem → List XElem
  | .mk _ _ _ cs => cs

/-- `element.get(key)`: the value of an attribute, or `None`. -/
def getAttr (e : XElem) (k : String) : Option String :=
  (e.attrs.find? (fun p => p.1 == k)).map (fun p => p.2)

/-- `element.set(key, value)`: replace an existing attribute in place or
append a new one. -/
def setAttr (e : XElem) (k v : String) : XElem :=
  XElem.mk e.tag
    (if e.attrs.any (fun p => p.1 == k) then
      e.attrs.map (fun p => if p.1 == k then (k, v) else p)
    else e.attrs ++ [(k, v)])
    e.text e.children

/-- The body of the per-path `try` block in `remove_zeros`:
`d = path.get("d"); d = <the four re.sub passes>; path.set("d", d)`.
When the path has no `d` attribute, `re.sub` is applied to `None` and
raises `TypeError` (modelled as `Except.error ()`). -/
def trim_d_result (p : XElem) : Except Unit XElem :=
  match getAttr p "d" with
  | none => Except.error ()
  | some d => Except.ok (setAttr p "d" (trimD d))

/-- The `try/except Exception: pass` around the block: an error leaves
the path element exactly unchanged. -/
def trimPathElem (p : XElem) : XElem :=
  match trim_d_result p with
  | Except.ok q => q
  | Except.error _ => p

/-- `remove_zeros(group, nsmap)`: rewrite the `d` attribute of every
direct `path` child, then recurse into the direct `g` and `defs`
children.  The tag sets are disjoint, so this is a single map over the
children. -/
def removeZeros (ns : String) : XElem → XElem
  | XElem.mk t a tx cs =>
    XElem.mk t a tx (cs.attach.map (fun cw =>
      if cw.1.tag = ns ++ "path" then trimPathElem cw.1
      else if cw.1.tag = ns ++ "g" ∨ cw.1.tag = ns ++ "defs" then
        removeZeros ns cw.1
      else cw.1))
decreasing_by
  simp_wf
  have h1 := List.sizeOf_lt_of_mem cw.2
  omega

/-- The action of `remove_zeros` on one direct child. -/
def rzChild (ns : String) (c : XElem) : XElem :=
  if c.tag = ns ++ "path" then trimPathElem c
  else if c.tag = ns ++ "g" ∨ c.tag = ns ++ "defs" then removeZeros ns c
  else c

lemma removeZeros_def (ns t : String) (a : List (String × String))
    (tx : Option String) (cs : List XElem) :
    removeZeros ns (XElem.mk t a tx cs) =
      XElem.mk t a tx (cs.map (rzChild ns)) := by
  rw [removeZeros]
  congr 1
  rw [show (fun cw : {x // x ∈ cs} =>
    if cw.1.tag = ns ++ "path" then trimPathElem cw.1
    else if cw.1.tag = ns ++ "g" ∨ cw.1.tag = ns ++ "defs" then
      removeZeros ns cw.1
    else cw.1) = (fun cw : {x // x ∈ cs} => rzChild ns cw.1) from rfl]
  exact List.attach_map_val cs (rzChild ns)

lemma find?_set_self (l : List (String × String)) (k v : String)
    (h : l.any (fun p => p.1 == k) = true) :
    (l.map (fun p => if p.1 == k then (k, v) else p)).find?
      (fun p => p.1 == k) = some (k, v) := by
  induction l with
  | nil => simp at h
  | cons p tl ih =>
    cases hpk : (p.1 == k) with
    | true =>
      rw [List.map_cons, if_pos hpk, List.find?_cons_of_pos _ (by simp)]
    | false =>
      have h' : tl.any (fun p => p.1 == k) = true := by
        simpa [List.any_cons, hpk] using h
      rw [List.map_cons, if_neg (by simp [hpk]),
        List.find?_cons_of_neg _ (by simp [hpk])]
      exact ih h'

lemma find?_set_ne (l : List (String × String)) {k k' : String} (v : String)
    (h : ¬ k = k') :
    (l.map (fun p => if p.1 == k then (k, v) else p)).find?
      (fun p => p.1 == k') = l.find? (fun p => p.1 == k') := by
  induction l with
  | nil => rfl
  | cons p tl ih =>
    cases hpk : (p.1 == k) with
    | true =>
      have hp : p.1 = k := by simpa using hpk
      rw [List.map_cons, if_pos hpk,
        List.find?_cons_of_neg _ (by simp [h]),
        List.find?_cons_of_neg _ (by simp [hp, h])]
      exact ih
    | false =>
      rw [List.map_cons, if_neg (by simp [hpk])]
      cases hpk' : (p.1 == k') with
      | true =>
        rw [List.find?_cons_of_pos _ (by simp [hpk']),
          List.find?_cons_of_pos _ (by simp [hpk'])]
      | false =>
        rw [List.find?_cons_of_neg _ (by simp [hpk']),
          List.find?_cons_of_neg _ (by simp [hpk'])]
        exact ih

lemma getAttr_setAttr_self (e : XElem) (k v : String) :
    getAttr (setAttr e k v) k = some v := by
  obtain ⟨t, a, tx, cs⟩ := e
  rw [setAttr, getAttr]
  simp only [XElem.attrs, XElem.tag, XElem.text, XElem.children]
  cases hany : a.any (fun p => p.1 == k) with
  | true =>
    rw [if_pos rfl, find?_set_self _ _ _ hany]
    rfl
  | false =>
    have hnone : a.find? (fun p => p.1 == k) = none :=
      List.find?_eq_none.mpr (fun x hx => by
        simpa using List.any_eq_false.mp hany x hx)
    rw [if_neg (by simp), List.find?_append, hnone]
    simp

lemma getAttr_setAttr_ne (e : XElem) {k k' : String} (v : String)
    (h : ¬ k = k') :
    getAttr (setAttr e k v) k' = getAttr e k' := by
  obtain ⟨t, a, tx, cs⟩ := e
  rw [setAttr, getAttr, getAttr]
  simp only [XElem.attrs, XElem.tag, XElem.text, XElem.children]
  cases hany : a.any (fun p => p.1 == k) with
  | true => rw [if_pos rfl, find?_set_ne _ _ h]
  | false =>
    rw [if_neg (by simp), List.find?_append,
      show ([(k, v)].find? (fun p => p.1 == k')) = none by simp [h],
      Option.or_none]

/-! ## Model of mplwp.py: postprocess (tree-level part) -/

def listStartsWith : List Char → List Char → Bool
  | _, [] => true
  | [], _ :: _ => false
  | c :: cs, p :: ps => c == p && listStartsWith cs ps

/-- Python `str.replace(pat, rep)` for a non-empty pattern: left-to-right
non-overlapping replacement of every occurrence.  Fuel equal to the
input length is never exhausted. -/
def pyReplaceF : ℕ → List Char → List Char → List Char → List Char
  | 0, _, _, s => s
  | _ + 1, _, _, [] => []
  | fuel + 1, pat, rep, c :: rest =>
    if listStartsWith (c :: rest) pat && !pat.isEmpty then
      rep ++ pyReplaceF fuel pat rep ((c :: rest).drop pat.length)
    else c :: pyReplaceF fuel pat rep rest

def pyReplace (s pat rep : String) : String :=
  String.mk (pyReplaceF s.data.length pat.data rep.data s.data)

def svgNS : String := "\x7bhttp://www.w3.org/2000/svg\x7d"

def commons_website : String := "https://commons.wikimedia.org/wiki/File:"

def mplwpCredit : String :=
  "\nPlot created with mplwp, the Matplotlib extension for Wikipedia plots."

/-- `title = etree.Element("title"); title.text = fname` (no namespace
prefix on the created element). -/
def mkTitle (fname : String) : XElem := XElem.mk "title" [] (some fname) []

/-- `desc = etree.Element("desc")` with
`desc.text = commons_website + fname` plus the credit line. -/
def mkDesc (fname : String) : XElem :=
  XElem.mk "desc" [] (some (commons_website ++ fname ++ mplwpCredit)) []

/-- `svg[:] = sorted(svg, key=lambda el: int(el.tag != nsmap + "defs"))`:
Python's sort is stable and the key takes only the values 0 (for `defs`)
and 1 (for everything else), so the result is exactly the `defs`
children in original order followed by the others in original order. -/
def defsFirst (ns : String) (cs : List XElem) : List XElem :=
  cs.filter (fun c => c.tag == ns ++ "defs") ++
  cs.filter (fun c => !(c.tag == ns ++ "defs"))

/-- One iteration of
`for variable in ["width", "height"]: svg.set(variable, svg.get(variable).replace("pt", "px"))`.
When the attribute is absent, `svg.get` returns `None` and
`None.replace` raises `AttributeError`, which propagates. -/
def pxAttr (e : XElem) (k : String) : Except Unit XElem :=
  match getAttr e k with
  | none => Except.error ()
  | some v => Except.ok (setAttr e k (pyReplace v "pt" "px"))

/-- The tree-level mutations of `postprocess`, between the parse and the
serialisation: unit fix on width and height, defs-first reordering,
title/desc prepend, then `remove_zeros` over the whole tree. -/
def postprocess_tree (ns fname : String) (svg : XElem) : Except Unit XElem := do
  let s1 ← pxAttr svg "width"
  let s2 ← pxAttr s1 "height"
  let s3 := XElem.mk s2.tag s2.attrs s2.text
    (mkTitle fname :: mkDesc fname :: defsFirst ns s2.children)
  pure (removeZeros ns s3)

/-- C8 (confirmed): during path-data trimming each direct path child is
processed independently: the children list keeps its length, a path
child is replaced by its best-effort trim, and when trimming that path
errors (for example, a missing `d` attribute makes `re.sub` raise on
`None`) the error is swallowed and that child is left exactly unchanged
while every other child is still processed. -/
theorem removeZeros_swallows (ns t : String) (a : List (String × String))
    (tx : Option String) (cs : List XElem) (j : ℕ) (d0 : XElem)
    (hj : j < cs.length) (hpath : (cs.getD j d0).tag = ns ++ "path") :
    (removeZeros ns (XElem.mk t a tx cs)).children.length = cs.length ∧
    (removeZeros ns (XElem.mk t a tx cs)).children.getD j d0 =
      trimPathElem (cs.getD j d0) ∧
    (trim_d_result (cs.getD j d0) = Except.error () →
      (removeZeros ns (XElem.mk t a tx cs)).children.getD j d0 =
        cs.getD j d0) := by
  rw [removeZeros_def]
  simp only [XElem.children]
  have hget : (cs.map (rzChild ns)).getD j d0 = rzChild ns (cs.getD j d0) := by
    rw [List.getD_eq_getElem?_getD, List.getElem?_map,
      List.getElem?_eq_getElem hj, List.getD_eq_getElem?_getD,
      List.getElem?_eq_getElem hj]
    rfl
  refine ⟨List.length_map _ _, ?_, ?_⟩
  · rw [hget, rzChild, if_pos hpath]
  · intro herr
    rw [hget, rzChild, if_pos hpath]
    simp only [trimPathElem, herr]

/-- C8 (witness): a group with a single path child lacking a `d`
attribute: the trim errors, the error is swallowed, and the child is
returned unchanged. -/
theorem removeZeros_swallows_witness :
    (removeZeros "N:" (XElem.mk "N:svg" [] none
        [XElem.mk "N:path" [] none []])).children.length =
      ([XElem.mk "N:path" [] none []] : List XElem).length ∧
    (removeZeros "N:" (XElem.mk "N:svg" [] none
        [XElem.mk "N:path" [] none []])).children.getD 0
        (XElem.mk "" [] none []) =
      trimPathElem (([XElem.mk "N:path" [] none []] : List XElem).getD 0
        (XElem.mk "" [] none [])) ∧
    (trim_d_result (([XElem.mk "N:path" [] none []] : List XElem).getD 0
        (XElem.mk "" [] none [])) = Except.error () →
      (removeZeros "N:" (XElem.mk "N:svg" [] none
          [XElem.mk "N:path" [] none []])).children.getD 0
          (XElem.mk "" [] none []) =
        ([XElem.mk "N:path" [] none []] : List XElem).getD 0
          (XElem.mk "" [] none [])) :=
  removeZeros_swallows "N:" "N:svg" [] none [XElem.mk "N:path" [] none []]
    0 (XElem.mk "" [] none []) (by norm_num) (by rfl)

lemma getAttr_removeZeros (ns : String) (e : XElem) (k : String) :
    getAttr (removeZeros ns e) k = getAttr e k := by
  obtain ⟨t, a, tx, cs⟩ := e
  rw [removeZeros_def]
  rfl

lemma rzChild_other (ns : String) (c : XElem) (hp : ¬ c.tag = ns ++ "path")
    (hgd : ¬ (c.tag = ns ++ "g" ∨ c.tag = ns ++ "defs")) :
    rzChild ns c = c := by
  rw [rzChild, if_neg hp, if_neg hgd]

lemma mkTitle_tag (fname : String) : (mkTitle fname).tag = "title" := rfl

lemma mkDesc_tag (fname : String) : (mkDesc fname).tag = "desc" := rfl

/-- C6 (confirmed): on a well-formed namespaced SVG root with `width` and
`height` present, `postprocess` (tree level) replaces every occurrence of
"pt" by "px" in both attributes textually, prepends a `title` element
whose text is the file name and a `desc` element whose text is the
commons base URL plus the file name plus the fixed credit line as the
first two children, and orders the remaining children with every `defs`
element before every non-defs element, both groups keeping their
original relative order (each child also undergoing the best-effort
path-data trimming of `remove_zeros`). -/
theorem postprocess_structure (fname w h t : String)
    (a : List (String × String)) (tx : Option String) (cs : List XElem)
    (hw : getAttr (XElem.mk t a tx cs) "width" = some w)
    (hh : getAttr (XElem.mk t a tx cs) "height" = some h) :
    ∃ r : XElem,
      postprocess_tree svgNS fname (XElem.mk t a tx cs) = Except.ok r ∧
      getAttr r "width" = some (pyReplace w "pt" "px") ∧
      getAttr r "height" = some (pyReplace h "pt" "px") ∧
      r.children = mkTitle fname :: mkDesc fname ::
        (defsFirst svgNS cs).map (rzChild svgNS) ∧
      (mkTitle fname).text = some fname ∧
      (mkDesc fname).text = some (commons_website ++ fname ++ mplwpCredit) := by
  have hw1 : pxAttr (XElem.mk t a tx cs) "width" =
      Except.ok (setAttr (XElem.mk t a tx cs) "width" (pyReplace w "pt" "px")) := by
    simp only [pxAttr, hw]
  have hh1 : getAttr (setAttr (XElem.mk t a tx cs) "width"
      (pyReplace w "pt" "px")) "height" = some h := by
    rw [getAttr_setAttr_ne _ _ (by decide)]
    exact hh
  have hw2 : pxAttr (setAttr (XElem.mk t a tx cs) "width"
      (pyReplace w "pt" "px")) "height" =
      Except.ok (setAttr (setAttr (XElem.mk t a tx cs) "width"
        (pyReplace w "pt" "px")) "height" (pyReplace h "pt" "px")) := by
    simp only [pxAttr, hh1]
  refine ⟨removeZeros svgNS (XElem.mk
      (setAttr (setAttr (XElem.mk t a tx cs) "width" (pyReplace w "pt" "px"))
        "height" (pyReplace h "pt" "px")).tag
      (setAttr (setAttr (XElem.mk t a tx cs) "width" (pyReplace w "pt" "px"))
        "height" (pyReplace h "pt" "px")).attrs
      (setAttr (setAttr (XElem.mk t a tx cs) "width" (pyReplace w "pt" "px"))
        "height" (pyReplace h "pt" "px")).text
      (mkTitle fname :: mkDesc fname :: defsFirst svgNS
        (setAttr (setAttr (XElem.mk t a tx cs) "width" (pyReplace w "pt" "px"))
          "height" (pyReplace h "pt" "px")).children)), ?_, ?_, ?_, ?_, rfl, rfl⟩
  · simp only [postprocess_tree, hw1, hw2, Bind.bind, Except.bind, Pure.pure,
      Except.pure]
  · rw [getAttr_removeZeros]
    rw [show getAttr (XElem.mk
        (setAttr (setAttr (XElem.mk t a tx cs) "width" (pyReplace w "pt" "px"))
          "height" (pyReplace h "pt" "px")).tag
        (setAttr (setAttr (XElem.mk t a tx cs) "width" (pyReplace w "pt" "px"))
          "height" (pyReplace h "pt" "px")).attrs
        (setAttr (setAttr (XElem.mk t a tx cs) "width" (pyReplace w "pt" "px"))
          "height" (pyReplace h "pt" "px")).text
        (mkTitle fname :: mkDesc fname :: defsFirst svgNS
          (setAttr (setAttr (XElem.mk t a tx cs) "width" (pyReplace w "pt" "px"))
            "height" (pyReplace h "pt" "px")).children)) "width" =
      getAttr (setAttr (setAttr (XElem.mk t a tx cs) "width"
        (pyReplace w "pt" "px")) "height" (pyReplace h "pt" "px")) "width"
      from rfl]
    rw [getAttr_setAttr_ne _ _ (by decide), getAttr_setAttr_self]
  · rw [getAttr_removeZeros]
    rw [show getAttr (XElem.mk
        (setAttr (setAttr (XElem.mk t a tx cs) "width" (pyReplace w "pt" "px"))
          "height" (pyReplace h "pt" "px")).tag
        (setAttr (setAttr (XElem.mk t a tx cs) "width" (pyReplace w "pt" "px"))
          "height" (pyReplace h "pt" "px")).attrs
        (setAttr (setAttr (XElem.mk t a tx cs) "width" (pyReplace w "pt" "px"))
          "height" (pyReplace h "pt" "px")).text
        (mkTitle fname :: mkDesc fname :: defsFirst svgNS
          (setAttr (setAttr (XElem.mk t a tx cs) "width" (pyReplace w "pt" "px"))
            "height" (pyReplace h "pt" "px")).children)) "height" =
      getAttr (setAttr (setAttr (XElem.mk t a tx cs) "width"
        (pyReplace w "pt" "px")) "height" (pyReplace h "pt" "px")) "height"
      from rfl]
    rw [getAttr_setAttr_self]
  · rw [removeZeros_def]
    simp only [XElem.children, List.map_cons]
    rw [rzChild_other svgNS (mkTitle fname)
      (by rw [mkTitle_tag]; decide) (by rw [mkTitle_tag]; decide)]
    rw [rzChild_other svgNS (mkDesc fname)
      (by rw [mkDesc_tag]; decide) (by rw [mkDesc_tag]; decide)]
    rfl

/-- C6 (witness): the spec's minimal example: `width="100pt"`,
`height="50pt"` and children `[path, defs, g]` yield `width="100px"`,
`height="50px"` and children `[title, desc, defs, path, g]`. -/
theorem postprocess_structure_witness :
    ∃ r : XElem,
      postprocess_tree svgNS "plot.svg" (XElem.mk (svgNS ++ "svg")
        [("width", "100pt"), ("height", "50pt")] none
        [XElem.mk (svgNS ++ "path") [] none [],
         XElem.mk (svgNS ++ "defs") [] none [],
         XElem.mk (svgNS ++ "g") [] none []]) = Except.ok r ∧
      getAttr r "width" = some "100px" ∧
      getAttr r "height" = some "50px" ∧
      r.children = mkTitle "plot.svg" :: mkDesc "plot.svg" ::
        [XElem.mk (svgNS ++ "defs") [] none [],
         XElem.mk (svgNS ++ "path") [] none [],
         XElem.mk (svgNS ++ "g") [] none []] := by
  obtain ⟨r, h1, h2, h3, h4, _, _⟩ := postprocess_structure "plot.svg"
    "100pt" "50pt" (svgNS ++ "svg")
    [("width", "100pt"), ("height", "50pt")] none
    [XElem.mk (svgNS ++ "path") [] none [],
     XElem.mk (svgNS ++ "defs") [] none [],
     XElem.mk (svgNS ++ "g") [] none []] rfl rfl
  have hdefs : rzChild svgNS (XElem.mk (svgNS ++ "defs") [] none []) =
      XElem.mk (svgNS ++ "defs") [] none [] := by
    rw [rzChild, if_neg (by decide), if_pos (by decide), removeZeros_def]
    rfl
  have hpath : rzChild svgNS (XElem.mk (svgNS ++ "path") [] none []) =
      XElem.mk (svgNS ++ "path") [] none [] := by
    rw [rzChild, if_pos (by decide : (XElem.mk (svgNS ++ "path") [] none
      []).tag = svgNS ++ "path")]
    rfl
  have hg : rzChild svgNS (XElem.mk (svgNS ++ "g") [] none []) =
      XElem.mk (svgNS ++ "g") [] none [] := by
    rw [rzChild, if_neg (by decide), if_pos (by decide), removeZeros_def]
    rfl
  refine ⟨r, h1, ?_, ?_, ?_⟩
  · rw [h2]
    rfl
  · rw [h3]
    rfl
  · rw [h4, show defsFirst svgNS [XElem.mk (svgNS ++ "path") [] none [],
        XElem.mk (svgNS ++ "defs") [] none [],
        XElem.mk (svgNS ++ "g") [] none []] =
      [XElem.mk (svgNS ++ "defs") [] none [],
       XElem.mk (svgNS ++ "path") [] none [],
       XElem.mk (svgNS ++ "g") [] none []] from rfl]
    simp only [List.map_cons, List.map_nil]
    rw [hdefs, hpath, hg]

/-! ## Model of mplwp.py: file_replace_d

`re.sub(r'd=\x22[^\x22]*\x22', lambda x: x.group(0).replace(old, new), text)`:
scan the raw file text left to right; at a match of the pattern
(the characters `d`, `=`, `\x22`, then everything up to the next `\x22`),
replace `old` by `new` inside the matched span and resume after it; both
call sites pass single characters, so `str.replace` is a character map.
Fuel equal to the text length is never exhausted. -/

def splitAtQuote : List Char → Option (List Char × List Char)
  | [] => none
  | c :: r =>
    if c = '"' then some ([], r)
    else (splitAtQuote r).map (fun p => (c :: p.1, p.2))

def replDF : ℕ → Char → Char → List Char → List Char
  | 0, _, _, s => s
  | _ + 1, _, _, [] => []
  | fuel + 1, o, n, c :: rest =>
    if c = 'd' ∧ rest.take 2 = ['=', '"'] then
      match splitAtQuote (rest.drop 2) with
      | some (content, rest2) =>
        'd' :: '=' :: '"' :: content.map (fun x => if x = o then n else x) ++
          '"' :: replDF fuel o n rest2
      | none => c :: replDF fuel o n rest
    else c :: replDF fuel o n rest

def file_replace_d (old new : Char) (text : List Char) : List Char :=
  replDF text.length old new text

/-- Whether the text contains any complete `d="..."` pattern match. -/
def hasDAttrPattern : List Char → Bool
  | [] => false
  | c :: r =>
    (c == 'd' && decide (r.take 2 = ['=', '"']) && (r.drop 2).contains '"') ||
    hasDAttrPattern r

lemma splitAtQuote_eq_none {s : List Char} :
    splitAtQuote s = none ↔ '"' ∉ s := by
  induction s with
  | nil => simp [splitAtQuote]
  | cons c r ih =>
    rw [splitAtQuote]
    by_cases hc : c = '"'
    · subst hc
      simp
    · rw [if_neg hc, Option.map_eq_none', ih]
      constructor
      · intro h hm
        rcases List.mem_cons.mp hm with e | hr
        · exact hc e.symm
        · exact h hr
      · intro h hr
        exact h (List.mem_cons_of_mem _ hr)

lemma splitAtQuote_some {s content rest2 : List Char}
    (h : splitAtQuote s = some (content, rest2)) :
    s = content ++ '"' :: rest2 ∧ '"' ∉ content := by
  induction s generalizing content rest2 with
  | nil => simp [splitAtQuote] at h
  | cons c r ih =>
    rw [splitAtQuote] at h
    by_cases hc : c = '"'
    · subst hc
      rw [if_pos rfl] at h
      simp only [Option.some.injEq, Prod.mk.injEq] at h
      obtain ⟨rfl, rfl⟩ := h
      exact ⟨rfl, by simp⟩
    · rw [if_neg hc] at h
      cases hsp : splitAtQuote r with
      | none => rw [hsp] at h; simp at h
      | some p =>
        obtain ⟨c1, r2⟩ := p
        rw [hsp] at h
        simp only [Option.map_some', Option.some.injEq, Prod.mk.injEq] at h
        obtain ⟨rfl, rfl⟩ := h
        obtain ⟨hr, hnq⟩ := ih hsp
        constructor
        · rw [List.cons_append, ← hr]
        · intro hm
          rcases List.mem_cons.mp hm with hm | hm
          · exact hc hm.symm
          · exact hnq hm

lemma splitAtQuote_append {xs ys : List Char} (h : '"' ∉ xs) :
    splitAtQuote (xs ++ '"' :: ys) = some (xs, ys) := by
  induction xs with
  | nil => simp [splitAtQuote]
  | cons c r ih =>
    have hc : ¬ c = '"' := fun e => h (by simp [e])
    rw [List.cons_append, splitAtQuote, if_neg hc,
      ih (fun m => h (List.mem_cons_of_mem _ m))]
    rfl

lemma replDF_nil (fuel : ℕ) (o n : Char) : replDF fuel o n [] = [] := by
  cases fuel <;> rfl

lemma replDF_no_quote {fuel : ℕ} {o n : Char} {s : List Char}
    (h : '"' ∉ s) : replDF fuel o n s = s := by
  induction fuel generalizing s with
  | zero => rfl
  | succ fuel ih =>
    cases s with
    | nil => rfl
    | cons c rest =>
      have hq : ¬ (c = 'd' ∧ rest.take 2 = ['=', '"']) := by
        rintro ⟨-, ht⟩
        have hmem : '"' ∈ rest.take 2 := by rw [ht]; simp
        exact h (List.mem_cons_of_mem _ (List.mem_of_mem_take hmem))
      rw [replDF, if_neg hq, ih (fun m => h (List.mem_cons_of_mem _ m))]

lemma replDF_head? (fuel : ℕ) (o n : Char) (s : List Char) :
    (replDF fuel o n s).head? = s.head? := by
  cases fuel with
  | zero => rfl
  | succ fuel =>
    cases s with
    | nil => rfl
    | cons c rest =>
      by_cases hcond : (c = 'd' ∧ rest.take 2 = ['=', '"'])
      · obtain ⟨rfl, ht⟩ := hcond
        rw [replDF, if_pos (show ('d' = 'd') ∧ rest.take 2 = ['=', '"']
          from ⟨rfl, ht⟩)]
        cases hm : splitAtQuote (rest.drop 2) with
        | none => rfl
        | some p =>
          obtain ⟨content, rest2⟩ := p
          rfl
      · rw [replDF, if_neg hcond]
        rfl

lemma replDF_take_two (fuel : ℕ) (o n : Char) (s : List Char) :
    (replDF fuel o n s).take 2 = s.take 2 := by
  cases fuel with
  | zero => rfl
  | succ fuel =>
    cases s with
    | nil => rfl
    | cons c rest =>
      by_cases hcond : (c = 'd' ∧ rest.take 2 = ['=', '"'])
      · obtain ⟨rfl, ht⟩ := hcond
        rw [replDF, if_pos (show ('d' = 'd') ∧ rest.take 2 = ['=', '"']
          from ⟨rfl, ht⟩)]
        cases hm : splitAtQuote (rest.drop 2) with
        | none =>
          show List.take 2 ('d' :: replDF fuel o n rest) =
            List.take 2 ('d' :: rest)
          rw [List.take_succ_cons, List.take_succ_cons,
            List.take_one, List.take_one, replDF_head?]
        | some p =>
          obtain ⟨content, rest2⟩ := p
          obtain ⟨r0, rfl⟩ : ∃ r0, rest = '=' :: '"' :: r0 := by
            rcases rest with _ | ⟨a, _ | ⟨b, r0⟩⟩ <;> simp [List.take] at ht
            obtain ⟨rfl, rfl⟩ := ht
            exact ⟨r0, rfl⟩
          rfl
      · rw [replDF, if_neg hcond, List.take_succ_cons, List.take_succ_cons,
          List.take_one, List.take_one, replDF_head?]

lemma replDF_length (fuel : ℕ) (o n : Char) (s : List Char) :
    (replDF fuel o n s).length = s.length := by
  induction fuel generalizing s with
  | zero => rfl
  | succ fuel ih =>
    cases s with
    | nil => rfl
    | cons c rest =>
      by_cases hcond : (c = 'd' ∧ rest.take 2 = ['=', '"'])
      · obtain ⟨rfl, ht⟩ := hcond
        rw [replDF, if_pos (show ('d' = 'd') ∧ rest.take 2 = ['=', '"']
          from ⟨rfl, ht⟩)]
        cases hm : splitAtQuote (rest.drop 2) with
        | none =>
          show ('d' :: replDF fuel o n rest).length = ('d' :: rest).length
          rw [List.length_cons, List.length_cons, ih]
        | some p =>
          obtain ⟨content, rest2⟩ := p
          obtain ⟨r0, rfl⟩ : ∃ r0, rest = '=' :: '"' :: r0 := by
            rcases rest with _ | ⟨a, _ | ⟨b, r0⟩⟩ <;> simp [List.take] at ht
            obtain ⟨rfl, rfl⟩ := ht
            exact ⟨r0, rfl⟩
          obtain ⟨hr0, -⟩ := splitAtQuote_some hm
          rw [show ('=' :: '"' :: r0).drop 2 = r0 from rfl] at hr0
          subst hr0
          show ('d' :: '=' :: '"' ::
            (content.map (fun x => if x = o then n else x) ++
              '"' :: replDF fuel o n rest2)).length =
            ('d' :: '=' :: '"' :: (content ++ '"' :: rest2)).length
          simp only [List.length_cons, List.length_append, List.length_map, ih]
      · rw [replDF, if_neg hcond, List.length_cons, List.length_cons, ih]

lemma replDF_eq_of_no_close {fuel : ℕ} {o n : Char} {r0 : List Char}
    (h : '"' ∉ r0) : replDF fuel o n ('=' :: '"' :: r0) = '=' :: '"' :: r0 := by
  cases fuel with
  | zero => rfl
  | succ fuel =>
    rw [replDF, if_neg (by rintro ⟨h1, -⟩; exact absurd h1 (by decide))]
    congr 1
    cases fuel with
    | zero => rfl
    | succ fuel =>
      rw [replDF, if_neg (by rintro ⟨h1, -⟩; exact absurd h1 (by decide))]
      rw [replDF_no_quote h]

lemma replDF_roundtrip (fuel1 : ℕ) :
    ∀ (fuel2 : ℕ) (s : List Char), s.length ≤ fuel1 → s.length ≤ fuel2 →
    '#' ∉ s →
    replDF fuel2 '#' '\n' (replDF fuel1 '\n' '#' s) = s := by
  induction fuel1 with
  | zero =>
    intro fuel2 s hf1 _ _
    have hs : s = [] := List.eq_nil_of_length_eq_zero (Nat.le_zero.mp hf1)
    subst hs
    rw [replDF_nil, replDF_nil]
  | succ fuel1 ih =>
    intro fuel2 s hf1 hf2 hsharp
    cases s with
    | nil => rw [replDF_nil, replDF_nil]
    | cons c rest =>
      cases fuel2 with
      | zero => simp at hf2
      | succ fuel2 =>
        by_cases hcond : (c = 'd' ∧ rest.take 2 = ['=', '"'])
        · obtain ⟨rfl, ht⟩ := hcond
          obtain ⟨r0, rfl⟩ : ∃ r0, rest = '=' :: '"' :: r0 := by
            rcases rest with _ | ⟨a, _ | ⟨b, r0⟩⟩ <;> simp [List.take] at ht
            obtain ⟨rfl, rfl⟩ := ht
            exact ⟨r0, rfl⟩
          rw [replDF, if_pos (show ('d' = 'd') ∧
            (('=' :: '"' :: r0).take 2 = ['=', '"']) from ⟨rfl, rfl⟩),
            show ('=' :: '"' :: r0).drop 2 = r0 from rfl]
          cases hm : splitAtQuote r0 with
          | some p =>
            obtain ⟨content, rest2⟩ := p
            obtain ⟨hr0, hnq⟩ := splitAtQuote_some hm
            subst hr0
            have hsharpc : '#' ∉ content := fun m => hsharp (by simp [m])
            have hsharp2 : '#' ∉ rest2 := fun m => hsharp (by simp [m])
            have hq' : '"' ∉ content.map (fun x => if x = '\n' then '#' else x) := by
              intro hmem
              obtain ⟨x, hx, he⟩ := List.mem_map.mp hmem
              by_cases hxn : x = '\n'
              · rw [if_pos hxn] at he
                exact absurd he (by decide)
              · rw [if_neg hxn] at he
                exact hnq (he ▸ hx)
            show replDF (fuel2 + 1) '#' '\n'
              ('d' :: '=' :: '"' ::
                (content.map (fun x => if x = '\n' then '#' else x) ++
                  '"' :: replDF fuel1 '\n' '#' rest2)) =
              'd' :: '=' :: '"' :: (content ++ '"' :: rest2)
            rw [replDF, if_pos (show ('d' = 'd') ∧
              (('=' :: '"' :: (content.map (fun x => if x = '\n' then '#' else x) ++
                '"' :: replDF fuel1 '\n' '#' rest2)).take 2 = ['=', '"'])
              from ⟨rfl, rfl⟩),
              show ('=' :: '"' :: (content.map (fun x => if x = '\n' then '#' else x) ++
                '"' :: replDF fuel1 '\n' '#' rest2)).drop 2 =
                content.map (fun x => if x = '\n' then '#' else x) ++
                '"' :: replDF fuel1 '\n' '#' rest2 from rfl,
              splitAtQuote_append hq']
            have hcc : (content.map (fun x => if x = '\n' then '#' else x)).map
                (fun x => if x = '#' then '\n' else x) = content := by
              rw [List.map_map]
              have hpt : ∀ x ∈ content,
                  ((fun x => if x = '#' then '\n' else x) ∘
                    (fun x => if x = '\n' then '#' else x)) x = x := by
                intro x hx
                by_cases hxn : x = '\n'
                · subst hxn
                  simp
                · have hxs : ¬ x = '#' := fun e => hsharpc (e ▸ hx)
                  simp [hxn, hxs]
              rw [List.map_congr_left hpt, List.map_id']
            have hlen : rest2.length ≤ fuel1 ∧ rest2.length ≤ fuel2 := by
              simp only [List.length_cons, List.length_append] at hf1 hf2
              omega
            show 'd' :: '=' :: '"' ::
              ((content.map (fun x => if x = '\n' then '#' else x)).map
                (fun x => if x = '#' then '\n' else x) ++
                '"' :: replDF fuel2 '#' '\n' (replDF fuel1 '\n' '#' rest2)) =
              'd' :: '=' :: '"' :: (content ++ '"' :: rest2)
            rw [hcc, ih fuel2 rest2 hlen.1 hlen.2 hsharp2]
          | none =>
            have hq : '"' ∉ r0 := splitAtQuote_eq_none.mp hm
            show replDF (fuel2 + 1) '#' '\n'
              ('d' :: replDF fuel1 '\n' '#' ('=' :: '"' :: r0)) =
              'd' :: '=' :: '"' :: r0
            rw [replDF_eq_of_no_close hq, replDF,
              if_pos (show ('d' = 'd') ∧
                (('=' :: '"' :: r0).take 2 = ['=', '"']) from ⟨rfl, rfl⟩),
              show ('=' :: '"' :: r0).drop 2 = r0 from rfl, hm]
            show 'd' :: replDF fuel2 '#' '\n' ('=' :: '"' :: r0) =
              'd' :: '=' :: '"' :: r0
            rw [replDF_eq_of_no_close hq]
        · rw [replDF, if_neg hcond, replDF,
            if_neg (by rw [replDF_take_two]; exact hcond)]
          congr 1
          have hlen : rest.length ≤ fuel1 ∧ rest.length ≤ fuel2 := by
            simp only [List.length_cons] at hf1 hf2
            omega
          exact ih fuel2 rest hlen.1 hlen.2
            (fun m => hsharp (List.mem_cons_of_mem _ m))

lemma replDF_no_dattr (fuel : ℕ) (o n : Char) :
    ∀ (s : List Char), hasDAttrPattern s = false → replDF fuel o n s = s := by
  induction fuel with
  | zero => intro s _; rfl
  | succ fuel ih =>
    intro s hd
    cases s with
    | nil => rfl
    | cons c rest =>
      rw [hasDAttrPattern] at hd
      obtain ⟨h1, h2⟩ := Bool.or_eq_false_iff.mp hd
      by_cases hcond : (c = 'd' ∧ rest.take 2 = ['=', '"'])
      · obtain ⟨rfl, ht⟩ := hcond
        have hnc : (rest.drop 2).contains '"' = false := by
          simpa [ht] using h1
        have hnone : splitAtQuote (rest.drop 2) = none :=
          splitAtQuote_eq_none.mpr (by simpa using hnc)
        rw [replDF, if_pos (show ('d' = 'd') ∧ rest.take 2 = ['=', '"']
          from ⟨rfl, ht⟩), hnone]
        show 'd' :: replDF fuel o n rest = 'd' :: rest
        rw [ih rest h2]
      · rw [replDF, if_neg hcond, ih rest h2]

/-- C9 (confirmed): the newline-hiding pass of `postprocess`
(`file_replace_d(fname, "\n", "#")`) rewrites characters only inside
spans matching `d="..."` (a text without any such span is unchanged, and
on the concrete example only the newline inside the `d="..."` span is
replaced by the placeholder while the newlines outside stay), and the
reverse pass at the end (`file_replace_d(fname, "#", "\n")`) restores
the placeholder to newlines, so for any text without a pre-existing
placeholder character the hide/restore pair is the identity and the
final stored file contains the original embedded newlines inside path
data. -/
theorem newline_hiding_confirmed (s : List Char) (h : '#' ∉ s) :
    file_replace_d '#' '\n' (file_replace_d '\n' '#' s) = s ∧
    (hasDAttrPattern s = false → file_replace_d '\n' '#' s = s) ∧
    file_replace_d '\n' '#'
      ('a' :: '\n' :: 'd' :: '=' :: '"' :: 'M' :: '\n' :: '1' :: '"' :: '\n' :: []) =
      ('a' :: '\n' :: 'd' :: '=' :: '"' :: 'M' :: '#' :: '1' :: '"' :: '\n' :: []) := by
  refine ⟨?_, ?_, by decide⟩
  · rw [file_replace_d, file_replace_d, replDF_length]
    exact replDF_roundtrip s.length s.length s le_rfl le_rfl h
  · intro hd
    rw [file_replace_d]
    exact replDF_no_dattr s.length '\n' '#' s hd

/-- C9 (witness): the hide/restore pair applied to the concrete text
`a\nd="M\n1"\n`, which contains no placeholder character. -/
theorem newline_hiding_witness :
    file_replace_d '#' '\n' (file_replace_d '\n' '#'
      ('a' :: '\n' :: 'd' :: '=' :: '"' :: 'M' :: '\n' :: '1' :: '"' :: '\n' :: [])) =
      ('a' :: '\n' :: 'd' :: '=' :: '"' :: 'M' :: '\n' :: '1' :: '"' :: '\n' :: []) ∧
    (hasDAttrPattern
        ('a' :: '\n' :: 'd' :: '=' :: '"' :: 'M' :: '\n' :: '1' :: '"' :: '\n' :: []) = false →
      file_replace_d '\n' '#'
        ('a' :: '\n' :: 'd' :: '=' :: '"' :: 'M' :: '\n' :: '1' :: '"' :: '\n' :: []) =
        ('a' :: '\n' :: 'd' :: '=' :: '"' :: 'M' :: '\n' :: '1' :: '"' :: '\n' :: [])) ∧
    file_replace_d '\n' '#'
      ('a' :: '\n' :: 'd' :: '=' :: '"' :: 'M' :: '\n' :: '1' :: '"' :: '\n' :: []) =
      ('a' :: '\n' :: 'd' :: '=' :: '"' :: 'M' :: '#' :: '1' :: '"' :: '\n' :: []) :=
  newline_hiding_confirmed
    ('a' :: '\n' :: 'd' :: '=' :: '"' :: 'M' :: '\n' :: '1' :: '"' :: '\n' :: [])
    (by decide)
